import Mathlib

/-!
Verification of the IKOS `tools/analyze_paging.py` script and of the
Paging Structure Walker & Validator that its specification describes.

The first section embeds the Python script itself: its integer constants,
the four page-table entries it computes, and the full transcript of lines
it prints.  The script takes no input, so the embedding takes an
`Environment` (command line and environment variables, which the script
ignores) and returns the printed lines together with the boolean return
value.

The second section models the Walker/Validator components that the
specification reconstructs (Address Decomposer, Table Reader, Entry
Decoder, Hierarchy Walker, Validator); those components have no
implementation in the repository, so each is modelled from the spec.
-/

namespace AnalyzePaging

/-- Memory layout constants (locals of `analyze_paging_structures`). -/
def PML4_BASE : Nat := 0x1000

def PDPT_BASE : Nat := 0x2000

def PD_BASE : Nat := 0x3000

def PT_BASE : Nat := 0x4000

/-- Page flag constants (locals of `analyze_paging_structures`). -/
def PAGE_PRESENT : Nat := 0x01

def PAGE_WRITABLE : Nat := 0x02

def PAGE_USER : Nat := 0x04

def PAGE_LARGE : Nat := 0x80

/-- `pml4_entry0 = PDPT_BASE | PAGE_PRESENT | PAGE_WRITABLE` -/
def pml4_entry0 : Nat := PDPT_BASE ||| PAGE_PRESENT ||| PAGE_WRITABLE

/-- `pdpt_entry0 = PD_BASE | PAGE_PRESENT | PAGE_WRITABLE` -/
def pdpt_entry0 : Nat := PD_BASE ||| PAGE_PRESENT ||| PAGE_WRITABLE

/-- `pd_entry0 = 0x000000 | PAGE_PRESENT | PAGE_WRITABLE | PAGE_LARGE` -/
def pd_entry0 : Nat := 0x000000 ||| PAGE_PRESENT ||| PAGE_WRITABLE ||| PAGE_LARGE

/-- `pd_entry1 = 0x200000 | PAGE_PRESENT | PAGE_WRITABLE | PAGE_LARGE` -/
def pd_entry1 : Nat := 0x200000 ||| PAGE_PRESENT ||| PAGE_WRITABLE ||| PAGE_LARGE

/-- One hexadecimal digit, upper case, as Python's `X` format produces. -/
def hexDigit (n : Nat) : Char :=
  if n < 10 then Char.ofNat (48 + n) else Char.ofNat (55 + n)

/-- Hex digits of `n`, most significant first; the first argument is fuel. -/
def hexChars : Nat → Nat → List Char
  | 0, _ => []
  | fuel + 1, n => if n = 0 then [] else hexChars fuel (n / 16) ++ [ hexDigit (n % 16)]

/-- Python's `format(n, "0<width>X")`: upper-case hex, zero-padded to `width`. -/
def hexPad (width n : Nat) : String :=
  let ds := hexChars (n + 1) n
  ⟨List.replicate (width - ds.length) '0' ++ ds⟩

/-- Python's rendering of a `bool` inside an f-string. -/
def pyBool : Bool → String
  | true => "True"
  | false => "False"

/-- Python's `bool(x)` on an integer. -/
def pyTruthy (x : Nat) : Bool := decide (x ≠ 0)

/-- The command line and environment-variable state of one invocation;
the script reads neither. -/
structure Environment where
  argv : List String
  vars : List (String × String)

/-- The lines printed by `analyze_paging_structures`, in order, one string
per `print` call (a bare `print()` is the empty line). -/
def analyze_output : List String :=
  [ "=== IKOS Paging Structure Analysis ===",
    "",
    "Memory Layout:",
    "  PML4 Base: 0x" ++ hexPad 4 PML4_BASE,
    "  PDPT Base: 0x" ++ hexPad 4 PDPT_BASE,
    "  PD Base:   0x" ++ hexPad 4 PD_BASE,
    "  PT Base:   0x" ++ hexPad 4 PT_BASE,
    "",
    "Expected Page Table Structure:",
    "==============================",
    "PML4[0] = 0x" ++ hexPad 8 pml4_entry0 ++ " (points to PDPT)",
    "  - Address: 0x" ++ hexPad 4 PDPT_BASE,
    "  - Flags: PRESENT=" ++ pyBool (pyTruthy (pml4_entry0 &&& PAGE_PRESENT)) ++
      ", WRITABLE=" ++ pyBool (pyTruthy (pml4_entry0 &&& PAGE_WRITABLE)),
    "",
    "PDPT[0] = 0x" ++ hexPad 8 pdpt_entry0 ++ " (points to PD)",
    "  - Address: 0x" ++ hexPad 4 PD_BASE,
    "  - Flags: PRESENT=" ++ pyBool (pyTruthy (pdpt_entry0 &&& PAGE_PRESENT)) ++
      ", WRITABLE=" ++ pyBool (pyTruthy (pdpt_entry0 &&& PAGE_WRITABLE)),
    "",
    "PD[0] = 0x" ++ hexPad 8 pd_entry0 ++ " (2MB page: 0x000000-0x1FFFFF)",
    "  - Physical Address: 0x000000",
    "  - Size: 2MB",
    "  - Flags: PRESENT=" ++ pyBool (pyTruthy (pd_entry0 &&& PAGE_PRESENT)) ++
      ", WRITABLE=" ++ pyBool (pyTruthy (pd_entry0 &&& PAGE_WRITABLE)) ++
      ", LARGE=" ++ pyBool (pyTruthy (pd_entry0 &&& PAGE_LARGE)),
    "",
    "PD[1] = 0x" ++ hexPad 8 pd_entry1 ++ " (2MB page: 0x200000-0x3FFFFF)",
    "  - Physical Address: 0x200000",
    "  - Size: 2MB",
    "  - Flags: PRESENT=" ++ pyBool (pyTruthy (pd_entry1 &&& PAGE_PRESENT)) ++
      ", WRITABLE=" ++ pyBool (pyTruthy (pd_entry1 &&& PAGE_WRITABLE)) ++
      ", LARGE=" ++ pyBool (pyTruthy (pd_entry1 &&& PAGE_LARGE)),
    "",
    "Virtual Memory Mapping:",
    "======================",
    "0x000000-0x1FFFFF → 0x000000-0x1FFFFF (Identity mapped, 2MB)",
    "  ├─ 0x000000-0x0FFFFF: Boot code, GDT, IDT",
    "  └─ 0x100000-0x1FFFFF: Page tables and kernel structures",
    "",
    "0x200000-0x3FFFFF → 0x200000-0x3FFFFF (Identity mapped, 2MB)",
    "  └─ 0x200000-0x3FFFFF: Kernel code and data sections",
    "",
    "Register Configuration:",
    "======================",
    "CR4: PAE bit (bit 5) set - Physical Address Extension enabled",
    "CR3: 0x1000 - Points to PML4 table",
    "EFER MSR: LME bit (bit 8) set - Long Mode Extensions enabled",
    "CR0: PG bit (bit 31) set - Paging enabled",
    "",
    "Paging Hierarchy:",
    "================",
    "Virtual Address (48-bit)",
    "    │",
    "    ├─ Bits 47-39: PML4 index (512 entries, 512GB each)",
    "    ├─ Bits 38-30: PDPT index (512 entries, 1GB each)",
    "    ├─ Bits 29-21: PD index (512 entries, 2MB each)",
    "    ├─ Bits 20-12: PT index (512 entries, 4KB each) [if not large page]",
    "    └─ Bits 11-0:  Page offset (4KB)",
    "",
    "Memory Coverage:",
    "===============",
    "Total mapped memory: 4MB (0x000000 - 0x3FFFFF)",
    "Paging structures size: 20KB (0x1000 - 0x4FFF)",
    "Available for kernel: ~4MB - 20KB = ~4076KB",
    "",
    "✓ Paging implementation complete and ready for kernel execution!" ]

/-- `analyze_paging_structures()`: prints `analyze_output` and returns `True`.
The Python function reads no argument, no file and no environment state, so
the embedding ignores its `Environment`. -/
def analyze_paging_structures (_env : Environment) : List String × Bool :=
  (analyze_output, true)

/-- The `expected` dict of `validate_constants`, in insertion order. -/
def expected : List (String × Nat) :=
  [ ("PML4_BASE", 0x1000),
    ("PDPT_BASE", 0x2000),
    ("PD_BASE", 0x3000),
    ("PT_BASE", 0x4000),
    ("PAGE_PRESENT", 0x01),
    ("PAGE_WRITABLE", 0x02),
    ("PAGE_LARGE", 0x80) ]

/-- The lines printed by `validate_constants`, in order. -/
def validate_output : List String :=
  [ "Validating Implementation Constants:",
    "===================================" ] ++
  expected.map (fun p => "✓ " ++ p.1 ++ ": 0x" ++ hexPad 4 p.2) ++
  [ "" ]

/-- `validate_constants()`: prints `validate_output` and returns `True`. -/
def validate_constants (_env : Environment) : List String × Bool :=
  (validate_output, true)

end AnalyzePaging

namespace Paging

/-- Modelled from the spec: the four levels of the x86-64 page-table
hierarchy (glossary and section 4). -/
inductive Level where
  | pml4
  | pdpt
  | pd
  | pt
deriving DecidableEq

/-- Modelled from the spec: the effective page size of a resolution
(section 3, `ResolutionResult`). -/
inductive PageSize where
  | fourKB
  | twoMB
  | oneGB
deriving DecidableEq

instance {ε α : Type} [DecidableEq ε] [DecidableEq α] : DecidableEq (Except ε α) := fun x y =>
  match x, y with
  | Except.ok a, Except.ok b =>
    if h : a = b then isTrue (by rw [h]) else isFalse (fun hc => h (by cases hc; rfl))
  | Except.error a, Except.error b =>
    if h : a = b then isTrue (by rw [h]) else isFalse (fun hc => h (by cases hc; rfl))
  | Except.ok _, Except.error _ => isFalse (fun hc => Except.noConfusion hc)
  | Except.error _, Except.ok _ => isFalse (fun hc => Except.noConfusion hc)

/-- Modelled from the spec: the error taxonomy of section 7 (the subset the
Decomposer, Reader, Decoder and Walker return as values). -/
inductive PagingFault where
  | nonCanonicalAddress
  | outOfBounds
  | notPresent (level : Level)
  | reservedBitsSet (level : Level)
deriving DecidableEq

/-- Modelled from the spec: a decoded page-table entry (section 3,
`PageTableEntry`). -/
structure PageTableEntry where
  present : Bool
  writable : Bool
  user : Bool
  large_page : Bool
  no_execute : Bool
  physical_address : Nat
deriving DecidableEq

/-- Alignment (in bits) of the physical-address field at a level: 2MB for a
large PD entry, 1GB for a large PDPT entry, 4KB otherwise (spec 4.3). -/
def levelAlignBits : Level → Bool → Nat
  | Level.pd, true => 21
  | Level.pdpt, true => 30
  | _, _ => 12

/-- Modelled from the spec: the Entry Decoder, lenient policy (section 4.3).
Flag bits: present=0, writable=1, user=2, large=7 (meaningful only at PD and
PDPT), no-execute=63; physical-address field is bits 12-51 with the low bits
zeroed to the level's alignment. -/
def decode (raw : Nat) (lvl : Level) : PageTableEntry :=
  let large :=
    match lvl with
    | Level.pd => raw.testBit 7
    | Level.pdpt => raw.testBit 7
    | _ => false
  { present := raw.testBit 0
    writable := raw.testBit 1
    user := raw.testBit 2
    large_page := large
    no_execute := raw.testBit 63
    physical_address :=
      raw % 2 ^ 52 / 2 ^ levelAlignBits lvl large * 2 ^ levelAlignBits lvl large }

/-- Modelled from the spec: the encoder inverse to `decode` used by the
round-trip property (section 8).  Each field occupies its own bit range, so
placing the fields by addition coincides with bitwise or. -/
def encode (e : PageTableEntry) : Nat :=
  cond e.present 1 0 + cond e.writable 2 0 + cond e.user 4 0 +
    cond e.large_page 128 0 + cond e.no_execute (2 ^ 63) 0 + e.physical_address

/-- Modelled from the spec: a valid entry for a level (section 8: "valid
entries at each level"): the physical address lies in the 52-bit field, is
aligned to the level's page granularity, and the large bit only appears at
PD or PDPT level. -/
def ValidEntry (lvl : Level) (e : PageTableEntry) : Prop :=
  e.physical_address < 2 ^ 52 ∧
    e.physical_address % 2 ^ levelAlignBits lvl e.large_page = 0 ∧
    (e.large_page = true → lvl = Level.pd ∨ lvl = Level.pdpt)

instance (lvl : Level) (e : PageTableEntry) : Decidable (ValidEntry lvl e) := by
  unfold ValidEntry
  infer_instance

/-- Modelled from the spec: an immutable byte buffer with a byte-read
function (section 3, `PhysicalMemoryView`); `isByte` records that reads
produce bytes. -/
structure PhysicalMemoryView where
  size : Nat
  read : Nat → Nat
  isByte : ∀ a, read a < 256

/-- Little-endian value of `n` consecutive bytes starting at `off`. -/
def readLE (view : PhysicalMemoryView) : Nat → Nat → Nat
  | _off, 0 => 0
  | off, n + 1 => view.read off + 256 * readLE view (off + 1) n

/-- Modelled from the spec: the Table Reader (section 4.2): bounds-check the
8-byte read at `table_physical_base + index*8` and return the little-endian
entry, or fail with `outOfBounds`. -/
def read_entry (view : PhysicalMemoryView) (table_physical_base index : Nat) :
    Except PagingFault Nat :=
  if table_physical_base + index * 8 + 8 ≤ view.size then
    Except.ok (readLE view (table_physical_base + index * 8) 8)
  else
    Except.error PagingFault.outOfBounds

/-- Modelled from the spec: the index record produced by the Address
Decomposer (section 3, `AddressIndices`). -/
structure AddressIndices where
  pml4 : Nat
  pdpt : Nat
  pd : Nat
  pt : Nat
  offset : Nat
deriving DecidableEq

/-- Canonical-form check: bits 63-48 must all equal bit 47 (spec 4.1),
computed as the value of the top 16 bits. -/
def canonical (va : Nat) : Bool :=
  decide (va >>> 48 = cond (va.testBit 47) 0xFFFF 0)

/-- Modelled from the spec: the Address Decomposer (section 4.1): split a
64-bit virtual address into the four table indices and the page offset, or
fail on a non-canonical address. -/
def decompose (va : Nat) : Except PagingFault AddressIndices :=
  if canonical va then
    Except.ok
      { pml4 := va >>> 39 &&& 0x1FF
        pdpt := va >>> 30 &&& 0x1FF
        pd := va >>> 21 &&& 0x1FF
        pt := va >>> 12 &&& 0x1FF
        offset := va &&& 0xFFF }
  else
    Except.error PagingFault.nonCanonicalAddress

/-- Modelled from the spec: the Hierarchy Walker (section 4.4): resolve a
virtual address through up to four levels, short-circuiting on large pages
and on missing entries. -/
def walk (view : PhysicalMemoryView) (root va : Nat) :
    Except PagingFault (Nat × PageSize) :=
  Except.bind (decompose va) fun idx =>
  Except.bind (read_entry view root idx.pml4) fun raw1 =>
  let e1 := decode raw1 Level.pml4
  if e1.present = false then Except.error (PagingFault.notPresent Level.pml4) else
  Except.bind (read_entry view e1.physical_address idx.pdpt) fun raw2 =>
  let e2 := decode raw2 Level.pdpt
  if e2.present = false then Except.error (PagingFault.notPresent Level.pdpt)
  else if e2.large_page then Except.ok (e2.physical_address ||| va % 2 ^ 30, PageSize.oneGB)
  else
  Except.bind (read_entry view e2.physical_address idx.pd) fun raw3 =>
  let e3 := decode raw3 Level.pd
  if e3.present = false then Except.error (PagingFault.notPresent Level.pd)
  else if e3.large_page then Except.ok (e3.physical_address ||| va % 2 ^ 21, PageSize.twoMB)
  else
  Except.bind (read_entry view e3.physical_address idx.pt) fun raw4 =>
  let e4 := decode raw4 Level.pt
  if e4.present = false then Except.error (PagingFault.notPresent Level.pt)
  else Except.ok (e4.physical_address ||| va % 2 ^ 12, PageSize.fourKB)

/-- Binding a success just applies the continuation. -/
lemma ok_bind {α β : Type} (a : α) (f : α → Except PagingFault β) :
    Except.bind (Except.ok a) f = f a := rfl

/-- The 8-byte words of the two-entry PD-large test hierarchy the script
describes: PML4[0] at 0x1000, PDPT[0] at 0x2000, PD[0] and PD[1] at 0x3000,
built from the script's entry values. -/
def testWord (a : Nat) : Nat :=
  if a = 0x1000 then AnalyzePaging.pml4_entry0
  else if a = 0x2000 then AnalyzePaging.pdpt_entry0
  else if a = 0x3000 then AnalyzePaging.pd_entry0
  else if a = 0x3008 then AnalyzePaging.pd_entry1
  else 0

/-- Byte image of `testWord`, little-endian. -/
def testRead (a : Nat) : Nat := testWord (a / 8 * 8) / 256 ^ (a % 8) % 256

/-- The memory view holding the script's test hierarchy (tables at
0x1000-0x4FFF, as the script prints: "Paging structures size ... 0x1000 -
0x4FFF"). -/
def testView : PhysicalMemoryView where
  size := 0x5000
  read := testRead
  isByte := fun _a => Nat.mod_lt _ (by norm_num)


/-- A leaf mapping discovered during validation: virtual start, physical
start, and size in bytes. -/
abbrev Region : Type := Nat × Nat × Nat

/-- Modelled from the spec: the Validator findings (section 4.5). -/
inductive Finding where
  | unalignedPhysicalAddress (level : Level) (index : Nat)
  | overlappingRegion (region_a region_b : Region)
  | reservedBitSet (level : Level) (index : Nat)
  | danglingReference (level : Level) (index : Nat)
deriving DecidableEq

/-- The raw physical-address field of an entry: bits 12-51 of the raw value. -/
def rawAddrField (raw : Nat) : Nat := raw % 2 ^ 52 / 2 ^ 12 * 2 ^ 12

/-- Bits that are neither the known flags (0, 1, 2, 7, 63) nor the
physical-address field (12-51): bits 3-6, 8-11 and 52-62. -/
def reservedMask : Nat := 0x78 + 0xF00 + (2 ^ 63 - 2 ^ 52)

/-- Bytes of virtual memory covered by one entry at each level. -/
def levelSize : Level → Nat
  | Level.pml4 => 2 ^ 39
  | Level.pdpt => 2 ^ 30
  | Level.pd => 2 ^ 21
  | Level.pt => 2 ^ 12

/-- The level an entry descends into (PT is a leaf and never descends). -/
def nextLevel : Level → Level
  | Level.pml4 => Level.pdpt
  | Level.pdpt => Level.pd
  | Level.pd => Level.pt
  | Level.pt => Level.pt

/-- Modelled from the spec: one table of the Validator traversal (section
4.5).  Walks all 512 entries of the table at `base`, collecting findings and
leaf regions; the fuel argument is the remaining depth, 4 at the root, which
makes the fixed four-level bound of the hierarchy explicit. -/
def validateTable (view : PhysicalMemoryView) (strict : Bool) :
    Nat → Level → Nat → Nat → List Finding × List Region
  | 0, _, _, _ => ([], [])
  | fuel + 1, lvl, base, virtBase =>
    (List.range 512).foldl
      (fun acc index =>
        match read_entry view base index with
        | Except.error _ => (acc.1 ++ [Finding.danglingReference lvl index], acc.2)
        | Except.ok raw =>
          let e := decode raw lvl
          if e.present = false then acc
          else
            let alignFs :=
              if rawAddrField raw % 2 ^ levelAlignBits lvl e.large_page = 0 then []
              else [Finding.unalignedPhysicalAddress lvl index]
            let reservedFs :=
              if strict && decide (raw &&& reservedMask ≠ 0) then
                [Finding.reservedBitSet lvl index]
              else []
            if decide (lvl = Level.pt) || e.large_page then
              (acc.1 ++ alignFs ++ reservedFs,
               acc.2 ++ [(virtBase + index * levelSize lvl, e.physical_address, levelSize lvl)])
            else if view.size < e.physical_address + 512 * 8 then
              (acc.1 ++ alignFs ++ reservedFs ++ [Finding.danglingReference lvl index], acc.2)
            else
              let sub := validateTable view strict fuel (nextLevel lvl) e.physical_address
                (virtBase + index * levelSize lvl)
              (acc.1 ++ alignFs ++ reservedFs ++ sub.1, acc.2 ++ sub.2))
      ([], [])

/-- True when two leaf mappings overlap, in their virtual or their physical
ranges (spec 4.5, `OverlappingRegion`). -/
def regionsOverlap (a b : Region) : Bool :=
  decide (a.1 < b.1 + b.2.2 ∧ b.1 < a.1 + a.2.2) ||
    decide (a.2.1 < b.2.1 + b.2.2 ∧ b.2.1 < a.2.1 + a.2.2)

/-- Overlap findings of a list of leaf regions, one per unordered pair. -/
def overlapFindings : List Region → List Finding
  | [] => []
  | r :: rest =>
    (rest.filter (fun s => regionsOverlap r s)).map
      (fun s => Finding.overlappingRegion r s) ++ overlapFindings rest

/-- Modelled from the spec: every finding of a full-hierarchy traversal from
the root, in discovery order, unbounded (section 4.5). -/
def validateAll (view : PhysicalMemoryView) (strict : Bool) (root : Nat) : List Finding :=
  let tr := validateTable view strict 4 Level.pml4 root 0
  tr.1 ++ overlapFindings tr.2

/-- Append a finding to the accumulated report unless the configured
maximum finding count has been reached. -/
def pushFinding (cap : Nat) (acc : List Finding) (f : Finding) : List Finding :=
  if acc.length < cap then acc ++ [f] else acc

/-- Modelled from the spec: the Validator (section 4.5): accumulate every
discovered finding, bounded by the configured maximum finding count `cap`. -/
def validate (view : PhysicalMemoryView) (strict : Bool) (root cap : Nat) : List Finding :=
  (validateAll view strict root).foldl (pushFinding cap) []

end Paging

namespace Paging

/-- The physical region mapped by the script's first large PD entry. -/
def pdRegion0 : Nat × Nat :=
  ((decode AnalyzePaging.pd_entry0 Level.pd).physical_address, 2 ^ 21)

/-- The physical region mapped by the script's second large PD entry. -/
def pdRegion1 : Nat × Nat :=
  ((decode AnalyzePaging.pd_entry1 Level.pd).physical_address, 2 ^ 21)

/-- Membership of an address in a (start, size) region. -/
def inRegion (r : Nat × Nat) (a : Nat) : Prop := r.1 ≤ a ∧ a < r.1 + r.2

end Paging

/-- C1: the observable behaviour of the script is a constant: for any two
invocations with any command lines and environments, both
`analyze_paging_structures` and `validate_constants` print the same lines
and return the same value, depending on no input. -/
theorem analyze_paging_output_constant :
    ∀ e1 e2 : AnalyzePaging.Environment,
      AnalyzePaging.analyze_paging_structures e1 = AnalyzePaging.analyze_paging_structures e2 ∧
        AnalyzePaging.validate_constants e1 = AnalyzePaging.validate_constants e2 :=
  fun _ _ => ⟨rfl, rfl⟩

/-- C2: neither function can fail: both are total on every invocation (the
embedding is a total function, mirroring a body with no raising operation)
and each returns `True`. -/
theorem analyze_paging_returns_true :
    ∀ e : AnalyzePaging.Environment,
      (AnalyzePaging.analyze_paging_structures e).2 = true ∧
        (AnalyzePaging.validate_constants e).2 = true :=
  fun _ => ⟨rfl, rfl⟩

/-- C9: the two table-pointer entries have exactly present (bit 0) and
writable (bit 1) set on top of the next table's base and the large bit
(bit 7) clear: `pml4_entry0 = PDPT_BASE | 3 = 0x2003` and
`pdpt_entry0 = PD_BASE | 3 = 0x3003`. -/
theorem table_pointer_entries_flags :
    AnalyzePaging.pml4_entry0 = 0x2003 ∧
      AnalyzePaging.pml4_entry0 = AnalyzePaging.PDPT_BASE ||| 3 ∧
      AnalyzePaging.pdpt_entry0 = 0x3003 ∧
      AnalyzePaging.pdpt_entry0 = AnalyzePaging.PD_BASE ||| 3 ∧
      AnalyzePaging.pml4_entry0.testBit 0 = true ∧
      AnalyzePaging.pml4_entry0.testBit 1 = true ∧
      AnalyzePaging.pml4_entry0 &&& AnalyzePaging.PAGE_LARGE = 0 ∧
      AnalyzePaging.pml4_entry0.testBit 7 = false ∧
      AnalyzePaging.pdpt_entry0.testBit 0 = true ∧
      AnalyzePaging.pdpt_entry0.testBit 1 = true ∧
      AnalyzePaging.pdpt_entry0 &&& AnalyzePaging.PAGE_LARGE = 0 ∧
      AnalyzePaging.pdpt_entry0.testBit 7 = false := by
  decide

/-- C3: every decoded `PageTableEntry` satisfies the alignment invariant:
the bits of its `physical_address` below its level's page-size alignment
are zero; in particular the script's two large PD entries decode as large
pages whose physical addresses are 2MB-aligned. -/
theorem decode_alignment_invariant :
    (∀ raw lvl, (Paging.decode raw lvl).physical_address %
        2 ^ Paging.levelAlignBits lvl (Paging.decode raw lvl).large_page = 0) ∧
      (Paging.decode AnalyzePaging.pd_entry0 Paging.Level.pd).large_page = true ∧
      (Paging.decode AnalyzePaging.pd_entry0 Paging.Level.pd).physical_address % 2 ^ 21 = 0 ∧
      (Paging.decode AnalyzePaging.pd_entry0 Paging.Level.pd).physical_address = 0x000000 ∧
      (Paging.decode AnalyzePaging.pd_entry1 Paging.Level.pd).large_page = true ∧
      (Paging.decode AnalyzePaging.pd_entry1 Paging.Level.pd).physical_address % 2 ^ 21 = 0 ∧
      (Paging.decode AnalyzePaging.pd_entry1 Paging.Level.pd).physical_address = 0x200000 := by
  refine ⟨?_, by decide, by decide, by decide, by decide, by decide, by decide⟩
  intro raw lvl
  simp only [Paging.decode]
  exact Nat.mul_mod_left _ _

/-- C10: the two large PD entries map disjoint contiguous 2MB physical
regions whose union is exactly the interval [0x000000, 0x400000), matching
the printed total of 4MB of mapped memory. -/
theorem pd_regions_partition :
    (∀ a : Nat, ¬ (Paging.inRegion Paging.pdRegion0 a ∧ Paging.inRegion Paging.pdRegion1 a)) ∧
      (∀ a : Nat,
        (Paging.inRegion Paging.pdRegion0 a ∨ Paging.inRegion Paging.pdRegion1 a) ↔
          a < 0x400000) ∧
      Paging.pdRegion0.2 + Paging.pdRegion1.2 = 0x400000 ∧
      "Total mapped memory: 4MB (0x000000 - 0x3FFFFF)" ∈ AnalyzePaging.analyze_output := by
  have h0 : Paging.pdRegion0 = (0x000000, 2 ^ 21) := by decide
  have h1 : Paging.pdRegion1 = (0x200000, 2 ^ 21) := by decide
  refine ⟨?_, ?_, ?_, ?_⟩
  · intro a
    rw [h0, h1]
    simp only [Paging.inRegion]
    omega
  · intro a
    rw [h0, h1]
    simp only [Paging.inRegion]
    omega
  · rw [h0, h1]
    norm_num
  · decide



namespace Paging

/-- Bridging lemma: the canonical-form check of `decompose` holds for a
64-bit address exactly when bits 63-48 all equal bit 47. -/
lemma canonical_iff {va : Nat} (h64 : va < 2 ^ 64) :
    canonical va = true ↔ ∀ i, 48 ≤ i → i < 64 → va.testBit i = va.testBit 47 := by
  have hsr : va >>> 48 = va / 2 ^ 48 := Nat.shiftRight_eq_div_pow va 48
  have hlt : va >>> 48 < 2 ^ 16 := by
    rw [hsr]
    rw [Nat.div_lt_iff_lt_mul (by norm_num)]
    calc va < 2 ^ 64 := h64
    _ = 2 ^ 16 * 2 ^ 48 := by norm_num
  have hbit : ∀ j, (va >>> 48).testBit j = va.testBit (48 + j) := by
    intro j
    exact Nat.testBit_shiftRight va
  have hmask : (0xFFFF : Nat) = 2 ^ 16 - 1 := by norm_num
  unfold canonical
  cases ht : va.testBit 47 <;>
    simp only [cond_true, cond_false, decide_eq_true_eq]
  case false =>
    constructor
    · intro h0 i h48 hi64
      have heq : va.testBit i = (va >>> 48).testBit (i - 48) := by
        rw [hbit]
        congr 1
        omega
      rw [heq, h0]
      simp [ht]
    · intro hall
      apply Nat.eq_of_testBit_eq
      intro j
      rcases Nat.lt_or_ge j 16 with hj | hj
      · rw [hbit, hall (48 + j) (by omega) (by omega)]
        simp
      · rw [Nat.testBit_lt_two_pow
          (Nat.lt_of_lt_of_le hlt (Nat.pow_le_pow_right (by norm_num) hj))]
        simp
  case true =>
    constructor
    · intro h0 i h48 hi64
      have heq : va.testBit i = (va >>> 48).testBit (i - 48) := by
        rw [hbit]
        congr 1
        omega
      rw [heq, h0, hmask, Nat.testBit_two_pow_sub_one]
      simp only [decide_eq_true_eq]
      omega
    · intro hall
      apply Nat.eq_of_testBit_eq
      intro j
      rcases Nat.lt_or_ge j 16 with hj | hj
      · rw [hbit, hall (48 + j) (by omega) (by omega), hmask,
          Nat.testBit_two_pow_sub_one]
        simp [hj]
      · rw [Nat.testBit_lt_two_pow
            (Nat.lt_of_lt_of_le hlt (Nat.pow_le_pow_right (by norm_num) hj)),
          hmask, Nat.testBit_two_pow_sub_one]
        simp
        omega

/-- The property C5 claims of the Address Decomposer at one address. -/
def DecomposerSpec (va : Nat) : Prop :=
  ((∃ idx, decompose va = Except.ok idx) ↔
      ∀ i, 48 ≤ i → i < 64 → va.testBit i = va.testBit 47) ∧
    (∀ idx, decompose va = Except.ok idx →
      idx.pml4 = va / 2 ^ 39 % 512 ∧ idx.pdpt = va / 2 ^ 30 % 512 ∧
        idx.pd = va / 2 ^ 21 % 512 ∧ idx.pt = va / 2 ^ 12 % 512 ∧
        idx.offset = va % 2 ^ 12) ∧
    ((∃ idx, decompose va = Except.ok idx) ∨
      decompose va = Except.error PagingFault.nonCanonicalAddress) ∧
    decompose 0x0001000000000000 = Except.error PagingFault.nonCanonicalAddress

end Paging

/-- C5: the Address Decomposer extracts PML4 from bits 47-39, PDPT from bits
38-30, PD from bits 29-21, PT from bits 20-12 and the offset from bits 11-0
of any 64-bit virtual address, and fails with `nonCanonicalAddress` exactly
when bits 63-48 do not all equal bit 47; in particular it rejects
0x0001_0000_0000_0000. -/
theorem decompose_spec (va : Nat) (h64 : va < 2 ^ 64) : Paging.DecomposerSpec va := by
  have h511 : (0x1FF : Nat) = 2 ^ 9 - 1 := by norm_num
  have hFFF : (0xFFF : Nat) = 2 ^ 12 - 1 := by norm_num
  refine ⟨?_, ?_, ?_, by decide⟩
  · rw [← Paging.canonical_iff h64]
    unfold Paging.decompose
    cases hc : Paging.canonical va <;> simp [hc]
  · intro idx hok
    unfold Paging.decompose at hok
    cases hc : Paging.canonical va <;> rw [hc] at hok <;> simp at hok
    subst hok
    refine ⟨?_, ?_, ?_, ?_, ?_⟩ <;>
      simp only [Nat.shiftRight_eq_div_pow, h511, hFFF,
        Nat.and_pow_two_sub_one_eq_mod] <;> norm_num
  · unfold Paging.decompose
    cases hc : Paging.canonical va <;> simp [hc]

/-- Witness for C5 at the concrete canonical address 0x7FF123456789. -/
theorem decompose_spec_witness : Paging.DecomposerSpec 0x7FF123456789 :=
  decompose_spec 0x7FF123456789 (by norm_num)

namespace Paging

/-- Byte `i` of a little-endian read of `n` bytes is the memory byte at
offset `off + i`. -/
lemma readLE_byte (view : PhysicalMemoryView) :
    ∀ n off i, i < n → readLE view off n / 256 ^ i % 256 = view.read (off + i) := by
  intro n
  induction n with
  | zero =>
    intro off i h
    exact absurd h (Nat.not_lt_zero i)
  | succ m ih =>
    intro off i h
    cases i with
    | zero =>
      have hb := view.isByte off
      simp only [readLE, pow_zero, Nat.div_one, Nat.add_zero]
      rw [Nat.add_mul_mod_self_left]
      exact Nat.mod_eq_of_lt hb
    | succ j =>
      have hb := view.isByte off
      have hstep : readLE view off (m + 1) / 256 ^ (j + 1) =
          readLE view (off + 1) m / 256 ^ j := by
        simp only [readLE]
        rw [pow_succ', ← Nat.div_div_eq_div_mul]
        congr 1
        rw [Nat.add_mul_div_left _ _ (by norm_num)]
        have hz : view.read off / 256 = 0 := Nat.div_eq_of_lt hb
        omega
      rw [hstep, ih (off + 1) j (by omega)]
      congr 1
      omega

/-- The property C6 claims of the Table Reader at one view, base and index. -/
def ReadEntrySpec (view : PhysicalMemoryView) (base index : Nat) : Prop :=
  (base + index * 8 + 8 ≤ view.size →
    ∃ v, read_entry view base index = Except.ok v ∧
      ∀ i, i < 8 → v / 256 ^ i % 256 = view.read (base + index * 8 + i)) ∧
  (view.size < base + index * 8 + 8 →
    read_entry view base index = Except.error PagingFault.outOfBounds)

end Paging

/-- C6: `read_entry view base index` returns the little-endian 8-byte entry
at byte offset `base + index*8` of the view whenever the whole read lies
within the view (byte `i` of the result is the memory byte at offset
`base + index*8 + i`), and fails with `outOfBounds` whenever the read would
exceed the view; it never mutates the view. -/
theorem read_entry_spec (view : Paging.PhysicalMemoryView) (base index : Nat) :
    Paging.ReadEntrySpec view base index := by
  constructor
  · intro hin
    refine ⟨Paging.readLE view (base + index * 8) 8, ?_, ?_⟩
    · unfold Paging.read_entry
      rw [if_pos hin]
    · intro i hi
      exact Paging.readLE_byte view 8 (base + index * 8) i hi
  · intro hout
    unfold Paging.read_entry
    rw [if_neg (by omega)]

/-- Witness for C6: an in-bounds read of the test view at PML4[0] and an
out-of-bounds read past its end. -/
theorem read_entry_spec_witness :
    ((0x1000 : Nat) + 0 * 8 + 8 ≤ Paging.testView.size ∧
      ∃ v, Paging.read_entry Paging.testView 0x1000 0 = Except.ok v ∧
        ∀ i, i < 8 → v / 256 ^ i % 256 = Paging.testView.read (0x1000 + 0 * 8 + i)) ∧
    (Paging.testView.size < 0x4FFC + 1 * 8 + 8 ∧
      Paging.read_entry Paging.testView 0x4FFC 1 = Except.error Paging.PagingFault.outOfBounds) :=
  ⟨⟨by decide, (read_entry_spec Paging.testView 0x1000 0).1 (by decide)⟩,
   ⟨by decide, (read_entry_spec Paging.testView 0x4FFC 1).2 (by decide)⟩⟩

namespace Paging

/-- Or of a power of two with a smaller number is their sum. -/
lemma two_pow_lor_of_lt {n b : Nat} (h : b < 2 ^ n) : 2 ^ n ||| b = 2 ^ n + b := by
  apply Nat.eq_of_testBit_eq
  intro i
  rcases Nat.lt_trichotomy i n with hi | hi | hi
  · rw [Nat.testBit_lor, Nat.testBit_two_pow_of_ne (by omega),
      Nat.testBit_two_pow_add_gt hi]
    simp
  · subst hi
    rw [Nat.testBit_lor, Nat.testBit_two_pow_self, Nat.testBit_two_pow_add_eq,
      Nat.testBit_lt_two_pow h]
    simp
  · have h2 : 2 ^ (i + 1) ≤ 2 ^ i * 2 := by
      rw [pow_succ]
    have hle : 2 ^ (n + 1) ≤ 2 ^ i := Nat.pow_le_pow_right (by norm_num) (by omega)
    have hn1 : 2 ^ (n + 1) = 2 ^ n + 2 ^ n := by
      rw [pow_succ]
      omega
    rw [Nat.testBit_lor, Nat.testBit_two_pow_of_ne (by omega),
      Nat.testBit_lt_two_pow (show b < 2 ^ i by omega),
      Nat.testBit_lt_two_pow (show 2 ^ n + b < 2 ^ i by omega)]
    simp

end Paging


/-- C4: for every virtual address below 0x400000 (so with all four indices
inside the two-entry PD-large hierarchy the script describes), the Walker
resolves it through that hierarchy to a physical address equal to the
virtual address, with effective page size 2MB. -/
theorem walk_identity_2mb (va : Nat) (h : va < 0x400000) :
    Paging.walk Paging.testView AnalyzePaging.PML4_BASE va =
      Except.ok (va, Paging.PageSize.twoMB) := by
  have hTF : ¬ ((true : Bool) = false) := by decide
  have hFT : ¬ ((false : Bool) = true) := by decide
  have hdivlt : va / 2 ^ 21 < 2 := by
    rw [Nat.div_lt_iff_lt_mul (by norm_num)]
    norm_num at h ⊢
    omega
  have hcan : Paging.canonical va = true := by
    unfold Paging.canonical
    rw [Nat.shiftRight_eq_div_pow, Nat.div_eq_of_lt (lt_trans h (by norm_num)),
      Nat.testBit_lt_two_pow (lt_trans h (by norm_num))]
    simp
  have hpml4 : va >>> 39 &&& 0x1FF = 0 := by
    rw [Nat.shiftRight_eq_div_pow, Nat.div_eq_of_lt (lt_trans h (by norm_num))]
    rfl
  have hpdpt : va >>> 30 &&& 0x1FF = 0 := by
    rw [Nat.shiftRight_eq_div_pow, Nat.div_eq_of_lt (lt_trans h (by norm_num))]
    rfl
  have hpd : va >>> 21 &&& 0x1FF = va / 2 ^ 21 := by
    have h511 : (0x1FF : Nat) = 2 ^ 9 - 1 := by norm_num
    rw [Nat.shiftRight_eq_div_pow, h511, Nat.and_pow_two_sub_one_eq_mod,
      Nat.mod_eq_of_lt (lt_trans hdivlt (by norm_num))]
  have hdec : Paging.decompose va = Except.ok
      { pml4 := 0, pdpt := 0, pd := va / 2 ^ 21,
        pt := va >>> 12 &&& 0x1FF, offset := va &&& 0xFFF } := by
    unfold Paging.decompose
    rw [hcan, if_pos rfl, hpml4, hpdpt, hpd]
  have h1 : Paging.read_entry Paging.testView AnalyzePaging.PML4_BASE 0 =
      Except.ok 0x2003 := by decide
  have hd1 : Paging.decode 0x2003 Paging.Level.pml4 =
      { present := true, writable := true, user := false, large_page := false,
        no_execute := false, physical_address := 0x2000 } := by decide
  have h2 : Paging.read_entry Paging.testView 0x2000 0 = Except.ok 0x3003 := by decide
  have hd2 : Paging.decode 0x3003 Paging.Level.pdpt =
      { present := true, writable := true, user := false, large_page := false,
        no_execute := false, physical_address := 0x3000 } := by decide
  unfold Paging.walk
  rw [hdec, Paging.ok_bind]
  dsimp only
  rw [h1, Paging.ok_bind, hd1]
  dsimp only
  rw [if_neg hTF, h2, Paging.ok_bind, hd2]
  dsimp only
  rw [if_neg hTF, if_neg hFT]
  rcases (show va / 2 ^ 21 = 0 ∨ va / 2 ^ 21 = 1 from by omega) with hc | hc <;> rw [hc]
  · have h3 : Paging.read_entry Paging.testView 0x3000 0 = Except.ok 0x83 := by decide
    have hd3 : Paging.decode 0x83 Paging.Level.pd =
        { present := true, writable := true, user := false, large_page := true,
          no_execute := false, physical_address := 0 } := by decide
    rw [h3, Paging.ok_bind, hd3]
    dsimp only
    rw [if_neg hTF, if_pos rfl]
    have hlt : va < 2 ^ 21 := by
      rwa [Nat.div_eq_zero_iff (by norm_num)] at hc
    rw [Nat.zero_or, Nat.mod_eq_of_lt hlt]
  · have h3 : Paging.read_entry Paging.testView 0x3000 1 = Except.ok 0x200083 := by decide
    have hd3 : Paging.decode 0x200083 Paging.Level.pd =
        { present := true, writable := true, user := false, large_page := true,
          no_execute := false, physical_address := 0x200000 } := by decide
    rw [h3, Paging.ok_bind, hd3]
    dsimp only
    rw [if_neg hTF, if_pos rfl]
    have hsplit := Nat.div_add_mod va (2 ^ 21)
    rw [hc, Nat.mul_one] at hsplit
    have h2p : (0x200000 : Nat) = 2 ^ 21 := by norm_num
    rw [h2p, Paging.two_pow_lor_of_lt (Nat.mod_lt va (by norm_num)), hsplit]

/-- Witness for C4 at the concrete virtual address 0x2ABCDE (inside the
second 2MB page). -/
theorem walk_identity_2mb_witness :
    Paging.walk Paging.testView AnalyzePaging.PML4_BASE 0x2ABCDE =
      Except.ok (0x2ABCDE, Paging.PageSize.twoMB) :=
  walk_identity_2mb 0x2ABCDE (by norm_num)

namespace Paging

/-- Folding `pushFinding` over a finding sequence keeps exactly the first
findings up to the cap. -/
lemma foldl_pushFinding (cap : Nat) :
    ∀ (l acc : List Finding), acc.length ≤ cap →
      l.foldl (pushFinding cap) acc = acc ++ l.take (cap - acc.length) := by
  intro l
  induction l with
  | nil =>
    intro acc h
    simp
  | cons x xs ih =>
    intro acc h
    rcases Nat.lt_or_ge acc.length cap with hlt | hge
    · rw [List.foldl_cons]
      have hpush : pushFinding cap acc x = acc ++ [x] := by
        unfold pushFinding
        rw [if_pos hlt]
      rw [hpush, ih (acc ++ [x]) (by simp; omega)]
      have hc : cap - acc.length = (cap - (acc ++ [x]).length) + 1 := by
        simp
        omega
      rw [hc, List.take_succ_cons, List.append_assoc]
      rfl
    · have hcap0 : cap - acc.length = 0 := by omega
      rw [List.foldl_cons]
      have hpush : pushFinding cap acc x = acc := by
        unfold pushFinding
        rw [if_neg (by omega)]
      rw [hpush, ih acc h, hcap0]
      simp [Nat.sub_eq_zero_of_le hge]

end Paging

/-- C7: the Validator terminates on every input and never aborts on a
finding: for every view, policy, root and cap, the capped run returns
exactly the first `cap` findings of the full traversal, so it is a prefix
of the complete finding sequence, bounded by the cap. -/
theorem validate_collects_up_to_cap (view : Paging.PhysicalMemoryView)
    (strict : Bool) (root cap : Nat) :
    Paging.validate view strict root cap =
        (Paging.validateAll view strict root).take cap ∧
      (Paging.validate view strict root cap).length ≤ cap ∧
      Paging.validate view strict root cap <+: Paging.validateAll view strict root := by
  have hmain : Paging.validate view strict root cap =
      (Paging.validateAll view strict root).take cap := by
    unfold Paging.validate
    rw [Paging.foldl_pushFinding cap _ [] (by simp)]
    simp
  refine ⟨hmain, ?_, ?_⟩
  · rw [hmain]
    exact List.length_take_le cap _
  · rw [hmain]
    exact List.take_prefix cap _


namespace Paging

/-- `encode` on an explicitly built entry, written field by field. -/
lemma encode_mk (p w u l nx : Bool) (phys : Nat) :
    encode (PageTableEntry.mk p w u l nx phys) =
      cond p 1 0 + cond w 2 0 + cond u 4 0 + cond l 128 0 +
        cond nx (2 ^ 63) 0 + phys := rfl

end Paging

/-- C8: for every valid `PageTableEntry` at each level, decoding the
encoding of the entry yields the entry back. -/
theorem decode_encode_roundtrip (lvl : Paging.Level) (e : Paging.PageTableEntry)
    (hv : Paging.ValidEntry lvl e) :
    Paging.decode (Paging.encode e) lvl = e := by
  obtain ⟨hlt, halign, hlarge⟩ := hv
  obtain ⟨p, w, u, l, nx, phys⟩ := e
  dsimp only at hlt halign hlarge
  have h12 : (2 ^ 12 : Nat) ∣ phys := by
    refine dvd_trans ?_ (Nat.dvd_of_mod_eq_zero halign)
    apply pow_dvd_pow
    cases lvl <;> cases l <;> simp [Paging.levelAlignBits]
  obtain ⟨m, hm⟩ := h12
  subst hm
  have hb0 : Nat.testBit
      (Paging.encode (Paging.PageTableEntry.mk p w u l nx (2 ^ 12 * m))) 0 = p := by
    rw [Nat.testBit_to_div_mod, Paging.encode_mk]
    rcases p <;> rcases w <;> rcases u <;> rcases l <;> rcases nx <;>
      simp only [cond_true, cond_false, decide_eq_true_eq,
        decide_eq_false_iff_not, pow_zero, Nat.div_one] <;>
      omega
  have hb1 : Nat.testBit
      (Paging.encode (Paging.PageTableEntry.mk p w u l nx (2 ^ 12 * m))) 1 = w := by
    rw [Nat.testBit_to_div_mod, Paging.encode_mk]
    rcases p <;> rcases w <;> rcases u <;> rcases l <;> rcases nx <;>
      simp only [cond_true, cond_false, decide_eq_true_eq,
        decide_eq_false_iff_not, pow_zero, Nat.div_one] <;>
      omega
  have hb2 : Nat.testBit
      (Paging.encode (Paging.PageTableEntry.mk p w u l nx (2 ^ 12 * m))) 2 = u := by
    rw [Nat.testBit_to_div_mod, Paging.encode_mk]
    rcases p <;> rcases w <;> rcases u <;> rcases l <;> rcases nx <;>
      simp only [cond_true, cond_false, decide_eq_true_eq,
        decide_eq_false_iff_not, pow_zero, Nat.div_one] <;>
      omega
  have hb7 : Nat.testBit
      (Paging.encode (Paging.PageTableEntry.mk p w u l nx (2 ^ 12 * m))) 7 = l := by
    rw [Nat.testBit_to_div_mod, Paging.encode_mk]
    rcases p <;> rcases w <;> rcases u <;> rcases l <;> rcases nx <;>
      simp only [cond_true, cond_false, decide_eq_true_eq,
        decide_eq_false_iff_not, pow_zero, Nat.div_one] <;>
      omega
  have hb63 : Nat.testBit
      (Paging.encode (Paging.PageTableEntry.mk p w u l nx (2 ^ 12 * m))) 63 = nx := by
    rw [Nat.testBit_to_div_mod, Paging.encode_mk]
    rcases p <;> rcases w <;> rcases u <;> rcases l <;> rcases nx <;>
      simp only [cond_true, cond_false, decide_eq_true_eq,
        decide_eq_false_iff_not, pow_zero, Nat.div_one] <;>
      omega
  cases lvl <;> cases l
  case pml4.true =>
    rcases hlarge rfl with hcontra | hcontra <;> exact Paging.Level.noConfusion hcontra
  case pt.true =>
    rcases hlarge rfl with hcontra | hcontra <;> exact Paging.Level.noConfusion hcontra
  all_goals (
    unfold Paging.decode
    dsimp only
    try rw [hb7]
    dsimp only [Paging.levelAlignBits] at halign ⊢
    rw [Paging.PageTableEntry.mk.injEq]
    refine ⟨hb0, hb1, hb2, rfl, hb63, ?_⟩
    rw [Paging.encode_mk]
    rcases p <;> rcases w <;> rcases u <;> rcases nx <;>
      simp only [cond_true, cond_false] <;>
      omega)

/-- Witness for C8: a valid large 2MB PD entry round-trips. -/
theorem decode_encode_roundtrip_witness :
    Paging.ValidEntry Paging.Level.pd
        { present := true, writable := true, user := false, large_page := true,
          no_execute := false, physical_address := 0x200000 } ∧
      Paging.decode
          (Paging.encode
            { present := true, writable := true, user := false, large_page := true,
              no_execute := false, physical_address := 0x200000 }) Paging.Level.pd =
        { present := true, writable := true, user := false, large_page := true,
          no_execute := false, physical_address := 0x200000 } :=
  ⟨by decide,
   decode_encode_roundtrip Paging.Level.pd _ (by decide)⟩
